import Mathlib

/-!
Verification of the albatross archive supervisor and consumer.

This file gives a shallow embedding of the two source files

  * `src/archive/management/commands/collector.py` (stream Supervisor), and
  * `src/archive/management/consumers.py` (consumption worker),

as executable Lean definitions, followed by theorems settling the frozen
claims about them.  Database querysets are modelled as lists of rows, the
stream registry (a Python dict keyed by owner) as an association list, and
the observable side effects of a tick (disconnects, log closes, sleeps,
channel opens) as an explicit event trace.
-/

namespace Collector

/-- One row of the Archive table, with the fields read or written by the
collector: primary key, owning user, query string, `started` and `stopped`
window timestamps (`stopped` is nullable), and the `is_running` flag. -/
structure Archive where
  pk : Nat
  user : Nat
  query : String
  started : Int
  stopped : Option Int
  is_running : Bool
deriving DecidableEq, Repr

/-- The archive store: the Archive rows plus the set of users whose
`status` is `STATUS_DISABLED`. -/
structure Database where
  archives : List Archive
  disabledUsers : List Nat
deriving DecidableEq, Repr

/-- One live upstream channel (`tweepy.Stream` plus its `StreamArchiver`
listener): its `running` flag and the archive group carried by the
listener (`stream.listener.channels`, one entry per archive). -/
structure Channel where
  running : Bool
  archives : List Archive
deriving DecidableEq, Repr

/-- The in-memory state of the collector command: `tracking` (pks of the
tracked archives; Django model equality is pk equality), `streams` (the
dict of live channels keyed by owning user, as an association list in
insertion order) and the `first_pass_completed` guard. -/
structure Command where
  tracking : List Nat
  streams : List (Nat × Channel)
  first_pass_completed : Bool
deriving DecidableEq, Repr

/-- Observable effects of a tick, in program order. -/
inductive Event where
  | disconnect (user : Nat)
  | closeLog (user : Nat)
  | sleep (duration : Nat)
  | openChannel (user : Nat)
deriving DecidableEq, Repr

def LOOP_TIME : Nat := 1
def CHILL_TIME : Nat := 30
def LISTENER_WAIT_TIME : Nat := 5

/-- The pks gathered by the loop at the top of `_handle_restarts`: for
every stream whose `running` flag is false, the pks of the archives bound
to its listener channels. -/
def restartPks (streams : List (Nat × Channel)) : List Nat :=
  (streams.filter (fun p => !p.2.running)).flatMap (fun p => p.2.archives.map (·.pk))

/-- `_handle_restarts(to_start)`: if no restart pks were gathered, return
`to_start` unchanged with no sleep; otherwise sleep `CHILL_TIME` and
return the queryset of all archives whose pk is in `to_start` or in the
gathered restart pks. -/
def handle_restarts (streams : List (Nat × Channel)) (to_start : List Archive)
    (db : Database) : List Archive × List Event :=
  let to_restart := restartPks streams
  if to_restart.isEmpty then (to_start, [])
  else
    (db.archives.filter (fun a => (to_start.map (·.pk) ++ to_restart).contains a.pk),
     [Event.sleep CHILL_TIME])

/-- Result of `_get_archives_to_start`: the queryset, the (possibly
updated) `first_pass_completed` guard, and the sleep events emitted. -/
structure StartResult where
  to_start : List Archive
  first_pass_completed : Bool
  events : List Event
deriving DecidableEq, Repr

/-- `_get_archives_to_start(now)`: filter `started <= now`, exclude the
tracked pks; only when `first_pass_completed` is already true, exclude
rows with `is_running = False` (the assignment of the guard sits inside
that same branch, exactly as in the source); then keep rows whose
`stopped` is strictly in the future or null, pass through
`_handle_restarts`, and finally exclude archives of disabled users. -/
def get_archives_to_start (now : Int) (c : Command) (db : Database) : StartResult :=
  let r := db.archives.filter
    (fun a => decide (a.started ≤ now) && !(c.tracking.contains a.pk))
  let guarded := if c.first_pass_completed
    then (r.filter (fun a => a.is_running), true)
    else (r, c.first_pass_completed)
  let windowed := guarded.1.filter (fun a =>
    match a.stopped with
    | some t => decide (now < t)
    | none => true)
  let hr := handle_restarts c.streams windowed db
  { to_start := hr.1.filter (fun a => !(db.disabledUsers.contains a.user)),
    first_pass_completed := guarded.2,
    events := hr.2 }

/-- The `to_stop` queryset of the loop body:
`Archive.objects.filter(stopped__lte=now, is_running=True)`. -/
def get_archives_to_stop (now : Int) (db : Database) : List Archive :=
  db.archives.filter (fun a =>
    (match a.stopped with
     | some t => decide (t ≤ now)
     | none => false) && a.is_running)

/-- Persist `is_running = v` for the row with the given pk
(`archive.save(update_fields=("is_running",))`). -/
def Database.setRunning (db : Database) (pk : Nat) (v : Bool) : Database :=
  let rows := db.archives.map
    (fun a => if a.pk = pk then { a with is_running := v } else a)
  { db with archives := rows }

/-- `start_tracking(archive)`: append the archive to `tracking` unless
already present, set `is_running = True` and persist it. -/
def start_tracking (c : Command) (db : Database) (a : Archive) :
    Command × Database :=
  ({ c with tracking :=
      if c.tracking.contains a.pk then c.tracking else c.tracking ++ [a.pk] },
   db.setRunning a.pk true)

/-- `stop_tracking(archive)`: remove the archive from `tracking` if
present (`list.remove`, first occurrence), set `is_running = False` and
persist it. -/
def stop_tracking (c : Command) (db : Database) (a : Archive) :
    Command × Database :=
  ({ c with tracking := c.tracking.erase a.pk }, db.setRunning a.pk false)

/-- The kill loop of `adjust_connections`: for each user in
`users_adjusting`, if a stream for that user exists, disconnect it, close
its log and delete it from the registry. -/
def killStreams : List Nat → List (Nat × Channel) → List (Nat × Channel) × List Event
  | [], streams => (streams, [])
  | u :: rest, streams =>
    if streams.any (fun p => p.1 == u) then
      let r := killStreams rest (streams.filter (fun p => p.1 != u))
      (r.1, Event.disconnect u :: Event.closeLog u :: r.2)
    else
      killStreams rest streams

/-- `groups[archive.user].append(archive)`, creating the dict entry (at
the end, in insertion order) when absent. -/
def groupInsert (groups : List (Nat × List Archive)) (u : Nat) (a : Archive) :
    List (Nat × List Archive) :=
  if groups.any (fun p => p.1 == u) then
    groups.map (fun p => if p.1 == u then (p.1, p.2 ++ [a]) else p)
  else
    groups ++ [(u, [a])]

/-- The regroup loop of `adjust_connections`: walk `self.tracking` in
order and group the tracked archives whose user is in `users_adjusting`
by user.  Tracked entries are resolved against the store by pk (the
in-memory instances and the rows agree on the immutable `user` and
`query` fields). -/
def buildGroups (db : Database) (tracking : List Nat) (users_adjusting : List Nat) :
    List (Nat × List Archive) :=
  tracking.foldl (fun groups pk =>
    match db.archives.find? (fun a => a.pk == pk) with
    | none => groups
    | some a =>
      if users_adjusting.contains a.user then groupInsert groups a.user a
      else groups) []

/-- The connect loop of `adjust_connections`: for each group open one new
stream for that user (registry entry replaced), then wait
`LISTENER_WAIT_TIME`.  Authentication or connection errors are caught
per user and reported in the source; the model follows the successful
open, which is the path that registers a channel. -/
def openStreams : List (Nat × List Archive) → List (Nat × Channel) →
    List (Nat × Channel) × List Event
  | [], streams => (streams, [])
  | (u, archives) :: rest, streams =>
    let r := openStreams rest
      (streams.filter (fun p => p.1 != u) ++ [(u, ⟨true, archives⟩)])
    (r.1, Event.openChannel u :: Event.sleep LISTENER_WAIT_TIME :: r.2)

/-- Result of `adjust_connections` or of a whole tick. -/
structure AdjustResult where
  collector : Command
  db : Database
  events : List Event
deriving DecidableEq, Repr

/-- `adjust_connections(to_start, to_stop)`: compute the touched users,
kill their streams, stop-track every archive of `to_stop`, start-track
every archive of `to_start`, regroup the tracked archives of touched
users, and open one new stream per group. -/
def adjust_connections (c : Command) (db : Database)
    (to_start to_stop : List Archive) : AdjustResult :=
  let users_adjusting := (to_start ++ to_stop).map (·.user)
  let killed := killStreams users_adjusting c.streams
  let c1 : Command := { c with streams := killed.1 }
  let p1 := to_stop.foldl (fun (p : Command × Database) a =>
    stop_tracking p.1 p.2 a) (c1, db)
  let p2 := to_start.foldl (fun (p : Command × Database) a =>
    start_tracking p.1 p.2 a) p1
  let groups := buildGroups p2.2 p2.1.tracking users_adjusting
  let opened := openStreams groups p2.1.streams
  { collector := { p2.1 with streams := opened.1 },
    db := p2.2,
    events := killed.2 ++ opened.2 }

/-- One iteration of `loop()`: compute `to_start` (updating the first
pass guard) and `to_stop`; if either is non-empty, adjust connections. -/
def tick (now : Int) (c : Command) (db : Database) : AdjustResult :=
  let sr := get_archives_to_start now c db
  let c1 : Command := { c with first_pass_completed := sr.first_pass_completed }
  let to_stop := get_archives_to_stop now db
  if sr.to_start.isEmpty && to_stop.isEmpty then
    { collector := c1, db := db, events := sr.events }
  else
    let ar := adjust_connections c1 db sr.to_start to_stop
    { collector := ar.collector, db := ar.db, events := sr.events ++ ar.events }

end Collector

namespace Consumers

/-- Records are opaque payloads; only their identity matters to the
aggregation pipeline, whose parsers are external collaborators. -/
abbrev Tweet := Nat

/-- One line of the durable record log read back by
`self.archive.get_tweets()`: it either deserialises to a tweet or is
corrupt. -/
inductive Line where
  | ok (tweet : Tweet)
  | corrupt
deriving DecidableEq, Repr

/-- The contract of the external `json.loads`: a well-formed line yields
its tweet, a corrupt line raises `ValueError` (modelled as `none`, which
`_parse_line` catches). -/
def parseJson : Line → Option Tweet
  | .ok t => some t
  | .corrupt => none

/-- The state of one `ArchiveConsumer` that the claims observe: the
archive fields it reads and writes (`total`, `allow_search`), the six
aggregators, and the cooperative `should_stop` flag.  The parsers live in
`archive/parsers.py`, outside the given sources; per the spec they are
opaque accumulators with a `collect(record)` method, so each aggregator
is modelled by the sequence of records fed to its `collect`. -/
structure Consumer where
  total : Nat
  allow_search : Bool
  raw : List Tweet
  cloud : List Tweet
  images : List Tweet
  map : List Tweet
  statistics : List Tweet
  search : List Tweet
  should_stop : Bool
deriving DecidableEq, Repr

/-- Modelled from the spec: `StatisticsParser` is code of this repository
in `archive/parsers.py`, which is not among the given sources.  Per spec
section 6, the statistics aggregator "additionally exposes a running
`aggregate["total"]` count"; it is modelled as the number of records fed
to its `collect`. -/
def statisticsTotal (c : Consumer) : Nat :=
  c.statistics.length

/-- `_parse_line(line)`: deserialise the line; on `ValueError` ignore it;
otherwise feed the tweet to the map, cloud, images and statistics
aggregators, and to the search aggregator only when `allow_search` is
set.  (The returned `created_at` string is only logged.) -/
def parse_line (c : Consumer) (l : Line) : Consumer :=
  match parseJson l with
  | none => c
  | some t =>
    let c1 := { c with
      map := c.map ++ [t],
      cloud := c.cloud ++ [t],
      images := c.images ++ [t],
      statistics := c.statistics ++ [t] }
    if c1.allow_search then { c1 with search := c1.search ++ [t] } else c1

/-- The replay loop of `_compile_aggregates`: before each line check
`should_stop` and return immediately if it is set; after the last line
set `total` from the statistics aggregate. -/
def compileLoop (c : Consumer) : List Line → Consumer
  | [] => { c with total := statisticsTotal c }
  | l :: ls => if c.should_stop then c else compileLoop (parse_line c l) ls

/-- `_compile_aggregates()`: reset `total` to 0, then replay every logged
line through `_parse_line`, finishing by setting `total` from the
statistics aggregate (unless a stop request ended the replay early). -/
def compile_aggregates (c : Consumer) (lines : List Line) : Consumer :=
  compileLoop { c with total := 0 } lines

/-- The failure points of `_process_message` after the `total` increment:
each aggregator `collect`, the `message.ack()`, and the tail of the
method after the ack (the debug log and the windowed
`_write_distillations`), any of which may raise. -/
inductive Step where
  | collectRaw
  | collectCloud
  | collectImages
  | collectStatistics
  | collectMap
  | collectSearch
  | ack
  | postAck
deriving DecidableEq, Repr

/-- The state effect of one step of `_process_message`. -/
def collectStep (c : Consumer) (t : Tweet) : Step → Consumer
  | .collectRaw => { c with raw := c.raw ++ [t] }
  | .collectCloud => { c with cloud := c.cloud ++ [t] }
  | .collectImages => { c with images := c.images ++ [t] }
  | .collectStatistics => { c with statistics := c.statistics ++ [t] }
  | .collectMap => { c with map := c.map ++ [t] }
  | .collectSearch => { c with search := c.search ++ [t] }
  | .ack => c
  | .postAck => c

/-- The steps of `_process_message` in program order: raw, cloud, images,
statistics, map, search (only when `allow_search`), ack, then the
post-ack tail. -/
def steps (c : Consumer) : List Step :=
  [.collectRaw, .collectCloud, .collectImages, .collectStatistics, .collectMap]
    ++ (if c.allow_search then [.collectSearch] else [])
    ++ [.ack, .postAck]

/-- Outcome of `_process_message`: the consumer state reached, whether
`message.ack()` ran, and whether an exception was raised. -/
structure ProcessResult where
  consumer : Consumer
  acked : Bool
  raised : Bool
deriving DecidableEq, Repr

/-- Run the steps in order; `failAt` designates the step at which an
exception is raised (the failing step takes no effect and the rest of
the method is abandoned). -/
def runSteps (t : Tweet) (failAt : Option Step) :
    Consumer → List Step → Bool → ProcessResult
  | c, [], acked => ⟨c, acked, false⟩
  | c, s :: rest, acked =>
    if failAt = some s then ⟨c, acked, true⟩
    else runSteps t failAt (collectStep c t s) rest (acked || s == Step.ack)

/-- `_process_message(tweet, message)`: increment `archive.total`, then
run the collect steps, the ack and the post-ack tail. -/
def process_message (c : Consumer) (t : Tweet) (failAt : Option Step) :
    ProcessResult :=
  runSteps t failAt { c with total := c.total + 1 } (steps c) false

/-- Outcome of `callback`: the consumer state, whether the message was
acknowledged, how long the handler slept, and whether the exception
escaped the handler. -/
structure CallbackResult where
  consumer : Consumer
  acked : Bool
  slept : Nat
  propagated : Bool
deriving DecidableEq, Repr

/-- `callback(tweet, message)`: run `_process_message`; a raised
exception of any kind is caught (never propagated), the failure is
reported, the handler sleeps one second and sets `should_stop`. -/
def callback (c : Consumer) (t : Tweet) (failAt : Option Step) : CallbackResult :=
  let r := process_message c t failAt
  if r.raised then
    ⟨{ r.consumer with should_stop := true }, r.acked, 1, false⟩
  else
    ⟨r.consumer, r.acked, 0, false⟩

/-- Steady-state processing of a list of records, one `_process_message`
per record, with no failures. -/
def processLive (c : Consumer) (tweets : List Tweet) : Consumer :=
  tweets.foldl (fun c t => (process_message c t none).consumer) c

/-- The archive-state effect of `_write_distillations`: `total` is
recomputed from the statistics aggregate.  The `generate()` calls build
external artifacts and snapshot fields out of scope here. -/
def write_distillations (c : Consumer) : Consumer :=
  { c with total := statisticsTotal c }

/-- The well-formed records of a log, in order. -/
def goodTweets (lines : List Line) : List Tweet :=
  lines.filterMap parseJson

end Consumers

/-! ## Supporting lemmas -/

namespace Collector

/-- A pk bound to a non-running stream is among the gathered restart pks. -/
theorem mem_restartPks {streams : List (Nat × Channel)} {u : Nat} {st : Channel}
    {pk : Nat} (hmem : (u, st) ∈ streams) (hrun : st.running = false)
    (hpk : pk ∈ st.archives.map (·.pk)) : pk ∈ restartPks streams := by
  unfold restartPks
  rw [List.mem_flatMap]
  refine ⟨(u, st), ?_, hpk⟩
  rw [List.mem_filter]
  exact ⟨hmem, by simp [hrun]⟩

/-- When every stream is running, no restart pks are gathered. -/
theorem restartPks_eq_nil {streams : List (Nat × Channel)}
    (h : ∀ p ∈ streams, p.2.running = true) : restartPks streams = [] := by
  unfold restartPks
  have : streams.filter (fun p => !p.2.running) = [] := by
    rw [List.filter_eq_nil_iff]
    intro p hp
    simp [h p hp]
  rw [this, List.flatMap_nil]

/-- The kill loop only removes registry entries. -/
theorem killStreams_sublist (users : List Nat) (streams : List (Nat × Channel)) :
    (killStreams users streams).1.Sublist streams := by
  induction users generalizing streams with
  | nil => simp [killStreams]
  | cons u rest ih =>
    unfold killStreams
    by_cases h : streams.any (fun p => p.1 == u) = true
    · simp only [h, if_true]
      exact ((ih _).trans (List.filter_sublist _))
    · simp only [h, if_false]
      exact ih streams

/-- The kill loop emits no channel-open events. -/
theorem killStreams_no_open (users : List Nat) (streams : List (Nat × Channel))
    (v : Nat) : Event.openChannel v ∉ (killStreams users streams).2 := by
  induction users generalizing streams with
  | nil => simp [killStreams]
  | cons u rest ih =>
    unfold killStreams
    by_cases h : streams.any (fun p => p.1 == u) = true <;>
      simp [h, ih]

/-- A touched user with a live channel has it disconnected and its log
closed by the kill loop. -/
theorem killStreams_kills (users : List Nat) (streams : List (Nat × Channel))
    (u : Nat) (hu : u ∈ users) (hl : u ∈ streams.map (·.1)) :
    Event.disconnect u ∈ (killStreams users streams).2 ∧
    Event.closeLog u ∈ (killStreams users streams).2 := by
  induction users generalizing streams with
  | nil => cases hu
  | cons w rest ih =>
    by_cases hw : u = w
    · subst hw
      have h : streams.any (fun p => p.1 == u) = true := by
        rw [List.any_eq_true]
        rcases List.mem_map.mp hl with ⟨p, hp, hpk⟩
        exact ⟨p, hp, by simp [hpk]⟩
      unfold killStreams
      simp [h]
    · have hu' : u ∈ rest := by
        rcases List.mem_cons.mp hu with h | h
        · exact absurd h hw
        · exact h
      by_cases h : streams.any (fun p => p.1 == w) = true
      · have hl' : u ∈ (streams.filter (fun p => p.1 != w)).map (·.1) := by
          rcases List.mem_map.mp hl with ⟨p, hp, hpk⟩
          refine List.mem_map.mpr ⟨p, List.mem_filter.mpr ⟨hp, ?_⟩, hpk⟩
          simp [hpk, hw]
        have hres := ih (streams.filter (fun p => p.1 != w)) hu' hl'
        unfold killStreams
        simp [h, hres.1, hres.2]
      · have hres := ih streams hu' hl
        unfold killStreams
        simp [h, hres.1, hres.2]

/-- Replacing the entry for one key keeps the registry keys distinct. -/
theorem nodupKeys_insert (streams : List (Nat × Channel)) (u : Nat) (ch : Channel)
    (h : (streams.map (·.1)).Nodup) :
    (((streams.filter (fun p => p.1 != u)) ++ [(u, ch)]).map (·.1)).Nodup := by
  rw [List.map_append]
  apply List.Nodup.append
  · exact ((List.filter_sublist _).map _).nodup h
  · simp
  · intro x hx hx2
    simp only [List.map_cons, List.map_nil, List.mem_singleton] at hx2
    subst hx2
    rcases List.mem_map.mp hx with ⟨p, hp, hpk⟩
    rw [List.mem_filter] at hp
    have := hp.2
    simp [hpk] at this

/-- The connect loop keeps the registry keys distinct. -/
theorem openStreams_nodupKeys (groups : List (Nat × List Archive))
    (streams : List (Nat × Channel)) (h : (streams.map (·.1)).Nodup) :
    ((openStreams groups streams).1.map (·.1)).Nodup := by
  induction groups generalizing streams with
  | nil => simpa [openStreams] using h
  | cons g rest ih =>
    cases g with
    | mk u archives =>
      simpa [openStreams] using ih _ (nodupKeys_insert streams u ⟨true, archives⟩ h)

/-- The stop-tracking fold leaves the stream registry untouched. -/
theorem foldl_stop_streams (l : List Archive) (p : Command × Database) :
    (l.foldl (fun p a => stop_tracking p.1 p.2 a) p).1.streams = p.1.streams := by
  induction l generalizing p with
  | nil => rfl
  | cons a as ih => rw [List.foldl_cons, ih]; rfl

/-- The start-tracking fold leaves the stream registry untouched. -/
theorem foldl_start_streams (l : List Archive) (p : Command × Database) :
    (l.foldl (fun p a => start_tracking p.1 p.2 a) p).1.streams = p.1.streams := by
  induction l generalizing p with
  | nil => rfl
  | cons a as ih => rw [List.foldl_cons, ih]; rfl

/-- The reconciliation trace is the kill-phase trace followed by the
open-phase trace. -/
theorem adjust_connections_events (c : Command) (db : Database)
    (ts tp : List Archive) :
    ∃ tail, (adjust_connections c db ts tp).events
      = (killStreams ((ts ++ tp).map (·.user)) c.streams).2 ++ tail :=
  ⟨_, rfl⟩

/-- Reconciliation preserves distinctness of the registry keys: at most
one channel per owner before implies at most one channel per owner
after. -/
theorem adjust_connections_nodupKeys (c : Command) (db : Database)
    (ts tp : List Archive) (hkeys : (c.streams.map (·.1)).Nodup) :
    ((adjust_connections c db ts tp).collector.streams.map (·.1)).Nodup := by
  have heq : (adjust_connections c db ts tp).collector.streams
      = (openStreams
          (buildGroups
            (ts.foldl (fun p a => start_tracking p.1 p.2 a)
              (tp.foldl (fun p a => stop_tracking p.1 p.2 a)
                ({ c with streams :=
                  (killStreams ((ts ++ tp).map (·.user)) c.streams).1 }, db))).2
            (ts.foldl (fun p a => start_tracking p.1 p.2 a)
              (tp.foldl (fun p a => stop_tracking p.1 p.2 a)
                ({ c with streams :=
                  (killStreams ((ts ++ tp).map (·.user)) c.streams).1 }, db))).1.tracking
            ((ts ++ tp).map (·.user)))
          (ts.foldl (fun p a => start_tracking p.1 p.2 a)
            (tp.foldl (fun p a => stop_tracking p.1 p.2 a)
              ({ c with streams :=
                (killStreams ((ts ++ tp).map (·.user)) c.streams).1 }, db))).1.streams).1 :=
    rfl
  rw [heq, foldl_start_streams, foldl_stop_streams]
  exact openStreams_nodupKeys _ _ (((killStreams_sublist _ _).map _).nodup hkeys)

/-- Two store rows with the same pk are the same row when pks are
distinct. -/
theorem pk_inj {l : List Archive} (h : (l.map (·.pk)).Nodup)
    {a b : Archive} (ha : a ∈ l) (hb : b ∈ l) (hpk : a.pk = b.pk) : a = b :=
  List.inj_on_of_nodup_map h ha hb hpk

/-- After persisting `is_running = false` for a pk, every row with that
pk is not running. -/
theorem setRunning_false_sets (db : Database) (pk : Nat) :
    ∀ b ∈ (db.setRunning pk false).archives, b.pk = pk → b.is_running = false := by
  intro b hb hbpk
  unfold Database.setRunning at hb
  simp only [List.mem_map] at hb
  obtain ⟨b0, hb0, rfl⟩ := hb
  by_cases h : b0.pk = pk <;> simp [h] at hbpk ⊢

/-- Persisting a running flag for a different pk (or persisting `false`)
keeps every row with the observed pk not running. -/
theorem setRunning_preserves_false (db : Database) (apk pk : Nat) (v : Bool)
    (hok : pk ≠ apk ∨ v = false)
    (h : ∀ b ∈ db.archives, b.pk = apk → b.is_running = false) :
    ∀ b ∈ (db.setRunning pk v).archives, b.pk = apk → b.is_running = false := by
  intro b hb hbpk
  unfold Database.setRunning at hb
  simp only [List.mem_map] at hb
  obtain ⟨b0, hb0, rfl⟩ := hb
  by_cases hc : b0.pk = pk
  · rw [if_pos hc] at hbpk ⊢
    rcases hok with hne | rfl
    · have h2 : b0.pk = apk := hbpk
      exact absurd (hc.symm.trans h2) hne
    · rfl
  · rw [if_neg hc] at hbpk ⊢
    exact h b0 hb0 hbpk

/-- The stop-tracking fold preserves "every row with this pk is not
running". -/
theorem stop_foldl_runFalse_pres (l : List Archive) (p : Command × Database)
    (apk : Nat)
    (h : ∀ b ∈ p.2.archives, b.pk = apk → b.is_running = false) :
    ∀ b ∈ (l.foldl (fun p a => stop_tracking p.1 p.2 a) p).2.archives,
      b.pk = apk → b.is_running = false := by
  induction l generalizing p with
  | nil => exact h
  | cons x xs ih =>
    rw [List.foldl_cons]
    exact ih _ (setRunning_preserves_false p.2 apk x.pk false (Or.inr rfl) h)

/-- After the stop-tracking fold over a list containing the archive,
every row with its pk is not running. -/
theorem stop_foldl_runFalse (l : List Archive) (p : Command × Database)
    (a : Archive) (hmem : a ∈ l) :
    ∀ b ∈ (l.foldl (fun p a => stop_tracking p.1 p.2 a) p).2.archives,
      b.pk = a.pk → b.is_running = false := by
  induction l generalizing p with
  | nil => cases hmem
  | cons x xs ih =>
    rw [List.foldl_cons]
    rcases List.mem_cons.mp hmem with rfl | hmem2
    · exact stop_foldl_runFalse_pres xs _ a.pk (setRunning_false_sets p.2 a.pk)
    · exact ih _ hmem2

/-- The start-tracking fold over archives of other pks preserves "every
row with this pk is not running". -/
theorem start_foldl_runFalse_pres (l : List Archive) (p : Command × Database)
    (apk : Nat) (hl : ∀ x ∈ l, x.pk ≠ apk)
    (h : ∀ b ∈ p.2.archives, b.pk = apk → b.is_running = false) :
    ∀ b ∈ (l.foldl (fun p a => start_tracking p.1 p.2 a) p).2.archives,
      b.pk = apk → b.is_running = false := by
  induction l generalizing p with
  | nil => exact h
  | cons x xs ih =>
    rw [List.foldl_cons]
    exact ih _ (fun y hy => hl y (List.mem_cons_of_mem _ hy))
      (setRunning_preserves_false p.2 apk x.pk true
        (Or.inl (hl x (List.mem_cons_self _ _))) h)

/-- The stop-tracking fold never re-adds a pk to the tracked set. -/
theorem stop_foldl_tracking_pres (l : List Archive) (p : Command × Database)
    (apk : Nat) (h : apk ∉ p.1.tracking) :
    apk ∉ (l.foldl (fun p a => stop_tracking p.1 p.2 a) p).1.tracking := by
  induction l generalizing p with
  | nil => exact h
  | cons x xs ih =>
    rw [List.foldl_cons]
    exact ih _ (fun habs => h (List.mem_of_mem_erase habs))

/-- The stop-tracking fold keeps the tracked pks distinct. -/
theorem stop_foldl_tracking_nodup (l : List Archive) (p : Command × Database)
    (h : p.1.tracking.Nodup) :
    (l.foldl (fun p a => stop_tracking p.1 p.2 a) p).1.tracking.Nodup := by
  induction l generalizing p with
  | nil => exact h
  | cons x xs ih =>
    rw [List.foldl_cons]
    exact ih _ (h.erase _)

/-- After the stop-tracking fold over a list containing the archive, its
pk is no longer tracked (tracked pks start out distinct). -/
theorem stop_foldl_tracking (l : List Archive) (p : Command × Database)
    (a : Archive) (hmem : a ∈ l) (hnd : p.1.tracking.Nodup) :
    a.pk ∉ (l.foldl (fun p a => stop_tracking p.1 p.2 a) p).1.tracking := by
  induction l generalizing p with
  | nil => cases hmem
  | cons x xs ih =>
    rw [List.foldl_cons]
    rcases List.mem_cons.mp hmem with rfl | hmem2
    · refine stop_foldl_tracking_pres xs _ a.pk (fun habs => ?_)
      exact ((List.Nodup.mem_erase_iff hnd).mp habs).1 rfl
    · exact ih _ hmem2 (hnd.erase _)

/-- The start-tracking fold over archives of other pks never adds the
observed pk to the tracked set. -/
theorem start_foldl_tracking_pres (l : List Archive) (p : Command × Database)
    (apk : Nat) (hl : ∀ x ∈ l, x.pk ≠ apk) (h : apk ∉ p.1.tracking) :
    apk ∉ (l.foldl (fun p a => start_tracking p.1 p.2 a) p).1.tracking := by
  induction l generalizing p with
  | nil => exact h
  | cons x xs ih =>
    rw [List.foldl_cons]
    refine ih _ (fun y hy => hl y (List.mem_cons_of_mem _ hy)) (fun habs => ?_)
    by_cases hc : p.1.tracking.contains x.pk
    · simp only [start_tracking, hc, if_true] at habs
      exact h habs
    · simp only [start_tracking, hc, if_false] at habs
      rcases List.mem_append.mp habs with hm | hm
      · exact h hm
      · have h2 : apk = x.pk := by simpa using hm
        exact hl x (List.mem_cons_self _ _) h2.symm

/-- A fold invariant: a property preserved by every step over elements of
the list holds of the result. -/
theorem foldl_inv {α β : Type} (P : β → Prop) (step : β → α → β) (l : List α)
    (init : β) (hstep : ∀ b x, x ∈ l → P b → P (step b x)) (h : P init) :
    P (l.foldl step init) := by
  induction l generalizing init with
  | nil => exact h
  | cons x xs ih =>
    rw [List.foldl_cons]
    exact ih _ (fun b y hy hb => hstep b y (List.mem_cons_of_mem _ hy) hb)
      (hstep init x (List.mem_cons_self _ _) h)

/-- Each member of a group after `groupInsert` comes from an existing
group of the same user or is the inserted archive. -/
theorem groupInsert_mem (groups : List (Nat × List Archive)) (u : Nat)
    (r : Archive) (u2 : Nat) (g2 : List Archive)
    (hmem : (u2, g2) ∈ groupInsert groups u r) (b : Archive) (hb : b ∈ g2) :
    (∃ g0, (u2, g0) ∈ groups ∧ b ∈ g0) ∨ b = r := by
  unfold groupInsert at hmem
  by_cases h : groups.any (fun p => p.1 == u) = true
  · simp only [h, if_true] at hmem
    rcases List.mem_map.mp hmem with ⟨p, hp, heq⟩
    by_cases hc : p.1 == u
    · rw [if_pos hc] at heq
      have hu2 : p.1 = u2 := congrArg Prod.fst heq
      have hg2 : p.2 ++ [r] = g2 := congrArg Prod.snd heq
      rw [← hg2] at hb
      rcases List.mem_append.mp hb with hm | hm
      · exact Or.inl ⟨p.2, by rw [← hu2]; exact hp, hm⟩
      · exact Or.inr (by simpa using hm)
    · rw [if_neg hc] at heq
      exact Or.inl ⟨g2, heq ▸ hp, hb⟩
  · simp only [h, if_false] at hmem
    rcases List.mem_append.mp hmem with hm | hm
    · exact Or.inl ⟨g2, hm, hb⟩
    · have : (u2, g2) = (u, [r]) := by simpa using hm
      have hg : g2 = [r] := congrArg Prod.snd this
      rw [hg] at hb
      exact Or.inr (by simpa using hb)

/-- Every archive placed in a regrouped channel is currently tracked. -/
theorem buildGroups_pks (db : Database) (tr : List Nat) (users : List Nat) :
    ∀ u g, (u, g) ∈ buildGroups db tr users → ∀ b ∈ g, b.pk ∈ tr := by
  unfold buildGroups
  refine foldl_inv
    (fun groups : List (Nat × List Archive) =>
      ∀ u g, (u, g) ∈ groups → ∀ b ∈ g, b.pk ∈ tr)
    _ tr [] ?_ ?_
  · intro groups pk hpk hP u g hmem b hb
    cases hfind : db.archives.find? (fun a => a.pk == pk) with
    | none =>
      simp only [hfind] at hmem
      exact hP u g hmem b hb
    | some r =>
      simp only [hfind] at hmem
      by_cases hu : users.contains r.user = true
      · rw [if_pos hu] at hmem
        rcases groupInsert_mem _ _ _ _ _ hmem b hb with ⟨g0, hg0, hbg0⟩ | rfl
        · exact hP u g0 hg0 b hbg0
        · have hr := List.find?_some hfind
          have : b.pk = pk := by simpa using hr
          rw [this]
          exact hpk
      · rw [if_neg hu] at hmem
        exact hP u g hmem b hb
  · intro u g hmem
    cases hmem

/-- After the kill loop, a processed user has no registry entry. -/
theorem killStreams_key_gone (users : List Nat) (streams : List (Nat × Channel))
    (u : Nat) (hu : u ∈ users) :
    u ∉ (killStreams users streams).1.map (·.1) := by
  induction users generalizing streams with
  | nil => cases hu
  | cons w rest ih =>
    by_cases hw : u = w
    · subst hw
      by_cases h : streams.any (fun p => p.1 == u) = true
      · unfold killStreams
        simp only [h, if_true]
        intro habs
        rcases List.mem_map.mp habs with ⟨p, hp, hpk⟩
        have hp2 := (killStreams_sublist rest _).subset hp
        rw [List.mem_filter] at hp2
        have hne := hp2.2
        simp [hpk] at hne
      · unfold killStreams
        simp only [h, if_false]
        intro habs
        rcases List.mem_map.mp habs with ⟨p, hp, hpk⟩
        have hp2 := (killStreams_sublist rest streams).subset hp
        exact h (List.any_eq_true.mpr ⟨p, hp2, by simp [hpk]⟩)
    · have hu2 : u ∈ rest := by
        rcases List.mem_cons.mp hu with h1 | h1
        · exact absurd h1 hw
        · exact h1
      unfold killStreams
      by_cases h : streams.any (fun p => p.1 == w) = true
      · simp only [h, if_true]
        exact ih _ hu2
      · simp only [h, if_false]
        exact ih _ hu2

/-- Every registry entry after the connect loop is an untouched input
entry or a freshly opened channel for one of the groups. -/
theorem openStreams_mem (groups : List (Nat × List Archive))
    (streams : List (Nat × Channel)) (e : Nat × Channel)
    (he : e ∈ (openStreams groups streams).1) :
    e ∈ streams ∨ ∃ u g, (u, g) ∈ groups ∧ e = (u, ⟨true, g⟩) := by
  induction groups generalizing streams with
  | nil =>
    left
    simpa [openStreams] using he
  | cons p rest ih =>
    cases p with
    | mk u g =>
      have he2 : e ∈ (openStreams rest
          ((streams.filter (fun p => p.1 != u)) ++ [(u, ⟨true, g⟩)])).1 := he
      rcases ih _ he2 with hmem | ⟨u2, g2, hg2, rfl⟩
      · rcases List.mem_append.mp hmem with hm | hm
        · exact Or.inl ((List.filter_sublist _).subset hm)
        · exact Or.inr ⟨u, g, List.mem_cons_self _ _, by simpa using hm⟩
      · exact Or.inr ⟨u2, g2, List.mem_cons_of_mem _ hg2, rfl⟩

/-- Shape of the final `to_start` queryset over any window-filtered
source: each member is a store row that either was gathered by restart
detection or has an open (or unbounded) window. -/
theorem to_start_shape (now : Int) (streams : List (Nat × Channel))
    (db : Database) (G : List Archive) (hG : ∀ x ∈ G, x ∈ db.archives)
    (hnodup : (db.archives.map (·.pk)).Nodup) (b : Archive)
    (hb : b ∈ (handle_restarts streams
        (G.filter (fun a =>
          match a.stopped with
          | some t => decide (now < t)
          | none => true)) db).1.filter
        (fun a => !(db.disabledUsers.contains a.user))) :
    b ∈ db.archives ∧
      (b.pk ∈ restartPks streams ∨
        (match b.stopped with
         | some t => now < t
         | none => True)) := by
  have hWin : ∀ x ∈ G.filter (fun a =>
      match a.stopped with
      | some t => decide (now < t)
      | none => true),
      x ∈ db.archives ∧
        (match x.stopped with
         | some t => now < t
         | none => True) := by
    intro x hx
    rw [List.mem_filter] at hx
    refine ⟨hG x hx.1, ?_⟩
    have h2 := hx.2
    cases hs : x.stopped with
    | none => trivial
    | some t =>
      rw [hs] at h2
      simpa using h2
  rw [List.mem_filter] at hb
  have hb1 := hb.1
  simp only [handle_restarts] at hb1
  by_cases hE : (restartPks streams).isEmpty = true
  · rw [if_pos hE] at hb1
    have hbW : b ∈ G.filter (fun a =>
        match a.stopped with
        | some t => decide (now < t)
        | none => true) := hb1
    exact (hWin b hbW).imp_right Or.inr
  · rw [if_neg hE] at hb1
    have hb2 : b ∈ db.archives.filter (fun a =>
        ((G.filter (fun a =>
          match a.stopped with
          | some t => decide (now < t)
          | none => true)).map (·.pk) ++ restartPks streams).contains a.pk) := hb1
    rw [List.mem_filter] at hb2
    refine ⟨hb2.1, ?_⟩
    have hcont := hb2.2
    simp only [List.contains_eq_any_beq, List.any_eq_true] at hcont
    obtain ⟨pk2, hpk2, hbeq⟩ := hcont
    have hbpk : b.pk = pk2 := by simpa using hbeq
    rcases List.mem_append.mp hpk2 with hm | hm
    · obtain ⟨x, hxW, hxpk⟩ := List.mem_map.mp hm
      have hx := hWin x hxW
      have hxb : x = b := pk_inj hnodup hx.1 hb2.1 (by rw [hxpk, ← hbpk])
      rw [← hxb]
      exact Or.inr hx.2
    · rw [hbpk]
      exact Or.inl hm

/-- Each member of the computed `to_start` is a store row that was
either gathered by restart detection or has an open or unbounded
window. -/
theorem mem_to_start_characterization (now : Int) (c : Command) (db : Database)
    (b : Archive) (hnodup : (db.archives.map (·.pk)).Nodup)
    (hb : b ∈ (get_archives_to_start now c db).to_start) :
    b ∈ db.archives ∧
      (b.pk ∈ restartPks c.streams ∨
        (match b.stopped with
         | some t => now < t
         | none => True)) := by
  simp only [get_archives_to_start] at hb
  by_cases hfp : c.first_pass_completed = true
  · rw [if_pos hfp] at hb
    refine to_start_shape now c.streams db _ ?_ hnodup b hb
    intro x hx
    have hx2 : x ∈ (db.archives.filter (fun a =>
        decide (a.started ≤ now) && !(c.tracking.contains a.pk))).filter
        (fun a => a.is_running) := hx
    exact (List.filter_sublist _).subset ((List.filter_sublist _).subset hx2)
  · rw [if_neg hfp] at hb
    refine to_start_shape now c.streams db _ ?_ hnodup b hb
    intro x hx
    have hx2 : x ∈ db.archives.filter (fun a =>
        decide (a.started ≤ now) && !(c.tracking.contains a.pk)) := hx
    exact (List.filter_sublist _).subset hx2

/-- Reconciliation fully retires an archive of `to_stop` that is not
also restarted: its row is persisted not-running, its pk leaves the
tracked set, and no registry entry carries it. -/
theorem adjust_connections_stops (c : Command) (db : Database)
    (ts tp : List Archive) (a : Archive)
    (htrack : c.tracking.Nodup)
    (hmem : a ∈ tp)
    (hts : ∀ b ∈ ts, b.pk ≠ a.pk)
    (hchan : ∀ p ∈ c.streams, ∀ b ∈ p.2.archives, b.pk = a.pk → p.1 = a.user) :
    (∀ b ∈ (adjust_connections c db ts tp).db.archives,
      b.pk = a.pk → b.is_running = false) ∧
    a.pk ∉ (adjust_connections c db ts tp).collector.tracking ∧
    (∀ p ∈ (adjust_connections c db ts tp).collector.streams,
      ∀ b ∈ p.2.archives, b.pk ≠ a.pk) := by
  set users := (ts ++ tp).map (·.user) with husers_def
  set killed := killStreams users c.streams with hkilled_def
  set mid := ts.foldl (fun p a => start_tracking p.1 p.2 a)
    (tp.foldl (fun p a => stop_tracking p.1 p.2 a)
      ({ c with streams := killed.1 }, db)) with hmid_def
  have hdb_eq : (adjust_connections c db ts tp).db = mid.2 := rfl
  have htr_eq : (adjust_connections c db ts tp).collector.tracking
      = mid.1.tracking := rfl
  have hstr_eq : (adjust_connections c db ts tp).collector.streams
      = (openStreams (buildGroups mid.2 mid.1.tracking users) mid.1.streams).1 :=
    rfl
  have hrunFalse : ∀ b ∈ mid.2.archives, b.pk = a.pk → b.is_running = false := by
    rw [hmid_def]
    exact start_foldl_runFalse_pres ts _ a.pk hts (stop_foldl_runFalse tp _ a hmem)
  have htrgone : a.pk ∉ mid.1.tracking := by
    rw [hmid_def]
    exact start_foldl_tracking_pres ts _ a.pk hts
      (stop_foldl_tracking tp _ a hmem htrack)
  have hmidstreams : mid.1.streams = killed.1 := by
    rw [hmid_def, foldl_start_streams, foldl_stop_streams]
  refine ⟨by rw [hdb_eq]; exact hrunFalse, by rw [htr_eq]; exact htrgone, ?_⟩
  rw [hstr_eq, hmidstreams]
  intro p hp b hb hbpk
  rcases openStreams_mem _ _ p hp with hkill | ⟨u2, g2, hg2, rfl⟩
  · have hpc : p ∈ c.streams := (killStreams_sublist _ _).subset hkill
    have huser : p.1 = a.user := hchan p hpc b hb hbpk
    have husersmem : a.user ∈ users := by
      rw [husers_def]
      exact List.mem_map.mpr ⟨a, List.mem_append_right _ hmem, rfl⟩
    exact killStreams_key_gone users c.streams a.user husersmem
      (List.mem_map.mpr ⟨p, hkill, huser⟩)
  · have hpks := buildGroups_pks mid.2 mid.1.tracking users u2 g2 hg2 b hb
    rw [hbpk] at hpks
    exact htrgone hpks

end Collector

namespace Consumers

/-- A corrupt line is ignored: no aggregator is fed. -/
theorem parse_line_corrupt (c : Consumer) (l : Line) (h : parseJson l = none) :
    parse_line c l = c := by
  unfold parse_line
  rw [h]

/-- Effect of replaying one well-formed line: map, cloud, images and
statistics are fed, search is fed only under `allow_search`, and raw is
not fed. -/
theorem parse_line_ok (c : Consumer) (t : Tweet) :
    parse_line c (Line.ok t) = { c with
      map := c.map ++ [t],
      cloud := c.cloud ++ [t],
      images := c.images ++ [t],
      statistics := c.statistics ++ [t],
      search := c.search ++ (if c.allow_search then [t] else []) } := by
  cases c with
  | mk total allow_search raw cloud images mp st se stop =>
    by_cases h : allow_search <;> simp [parse_line, parseJson, h]

/-- Characterisation of the replay loop when no stop has been
requested. -/
theorem compileLoop_spec (lines : List Line) (c : Consumer)
    (h : c.should_stop = false) :
    compileLoop c lines = { c with
      map := c.map ++ goodTweets lines,
      cloud := c.cloud ++ goodTweets lines,
      images := c.images ++ goodTweets lines,
      statistics := c.statistics ++ goodTweets lines,
      search := c.search ++ (if c.allow_search then goodTweets lines else []),
      total := c.statistics.length + (goodTweets lines).length } := by
  induction lines generalizing c with
  | nil =>
    cases c with
    | mk total allow_search raw cloud images mp st se stop =>
      by_cases hA : allow_search <;>
        simp [compileLoop, statisticsTotal, goodTweets, hA]
  | cons l ls ih =>
    cases l with
    | corrupt =>
      rw [show compileLoop c (Line.corrupt :: ls)
            = compileLoop (parse_line c Line.corrupt) ls by simp [compileLoop, h],
        parse_line_corrupt c Line.corrupt rfl, ih c h]
      simp [goodTweets, parseJson]
    | ok t =>
      rw [show compileLoop c (Line.ok t :: ls)
            = compileLoop (parse_line c (Line.ok t)) ls by simp [compileLoop, h],
        parse_line_ok]
      rw [ih _ (by simpa using h)]
      cases c with
      | mk total allow_search raw cloud images mp st se stop =>
        by_cases hA : allow_search <;>
          simp [goodTweets, parseJson, hA, Nat.add_assoc, Nat.add_comm 1]

/-- Replaying only well-formed lines recovers the original records. -/
theorem goodTweets_map_ok (tweets : List Tweet) :
    goodTweets (tweets.map Line.ok) = tweets := by
  induction tweets with
  | nil => rfl
  | cons t ts ih => simp [goodTweets, parseJson] at ih ⊢; exact ih

/-- The number of well-formed records equals the number of lines that
deserialise. -/
theorem goodTweets_length (lines : List Line) :
    (goodTweets lines).length
      = (lines.filter (fun l => (parseJson l).isSome)).length := by
  induction lines with
  | nil => rfl
  | cons l ls ih => cases l <;> simp [goodTweets, parseJson] at ih ⊢ <;> exact ih

/-- Characterisation of a fully successful `_process_message`: the total
is incremented, every aggregator including raw is fed (search only under
`allow_search`), and the message is acknowledged. -/
theorem process_message_none (c : Consumer) (t : Tweet) :
    process_message c t none = ⟨{ c with
      total := c.total + 1,
      raw := c.raw ++ [t],
      cloud := c.cloud ++ [t],
      images := c.images ++ [t],
      statistics := c.statistics ++ [t],
      map := c.map ++ [t],
      search := c.search ++ (if c.allow_search then [t] else []) },
      true, false⟩ := by
  cases c with
  | mk total allow_search raw cloud images mp st se stop =>
    by_cases hA : allow_search <;>
      simp [process_message, steps, runSteps, collectStep, hA]

/-- Statistics and total after live processing of a list of records. -/
theorem processLive_spec (tweets : List Tweet) (c : Consumer) :
    (processLive c tweets).statistics = c.statistics ++ tweets ∧
    (processLive c tweets).total = c.total + tweets.length := by
  induction tweets generalizing c with
  | nil => simp [processLive]
  | cons t ts ih =>
    rw [show processLive c (t :: ts)
          = processLive (process_message c t none).consumer ts by rfl,
      process_message_none]
    rcases ih { c with
      total := c.total + 1, raw := c.raw ++ [t], cloud := c.cloud ++ [t],
      images := c.images ++ [t], statistics := c.statistics ++ [t],
      map := c.map ++ [t],
      search := c.search ++ (if c.allow_search then [t] else []) } with ⟨h1, h2⟩
    refine ⟨?_, ?_⟩
    · rw [h1]; simp
    · rw [h2]; simp [Nat.add_assoc, Nat.add_comm 1]

end Consumers

/-! ## Claims -/

namespace Collector

/-- C1: the claim states that on every tick after the very first, the
to-start computation excludes archives whose `is_running` flag is false.
The code contradicts it (and its own docstring intent): the assignment
`self.first_pass_completed = True` sits inside the
`if self.first_pass_completed:` branch, so the guard is never set and the
exclusion never applies.  Concretely: archive 1 has `started = 5`,
`stopped = null`, `is_running = false`; the first tick (at `now = 0`)
completes without touching it, and on the next tick (at `now = 10`) the
archive is still included in `to_start` while the guard is still false. -/
theorem c1_first_pass_guard_never_set :
    let A : Archive := ⟨1, 1, "q", 5, none, false⟩
    let t1 := tick 0 ⟨[], [], false⟩ ⟨[A], []⟩
    t1.collector.first_pass_completed = false ∧
    A.is_running = false ∧
    A ∈ (get_archives_to_start 10 t1.collector t1.db).to_start ∧
    (get_archives_to_start 10 t1.collector t1.db).first_pass_completed = false := by
  decide

/-- C2: for a live channel reporting not-running, `_handle_restarts`
sleeps exactly the 30-unit cooldown and the returned queryset contains
every archive row whose pk is bound to that channel, with no condition on
the row being tracked or on its `is_running` flag; and when every channel
is running it neither sleeps nor changes `to_start`. -/
theorem c2_restart_detection_cooldown
    (streams : List (Nat × Channel)) (to_start : List Archive) (db : Database)
    (u : Nat) (st : Channel) (a : Archive)
    (hmem : (u, st) ∈ streams) (hrun : st.running = false)
    (hdb : a ∈ db.archives) (hpk : a.pk ∈ st.archives.map (·.pk)) :
    (handle_restarts streams to_start db).2 = [Event.sleep CHILL_TIME] ∧
    a ∈ (handle_restarts streams to_start db).1 ∧
    ∀ streams2 : List (Nat × Channel), (∀ p ∈ streams2, p.2.running = true) →
      handle_restarts streams2 to_start db = (to_start, []) := by
  have hin : a.pk ∈ restartPks streams := mem_restartPks hmem hrun hpk
  have hne : (restartPks streams).isEmpty = false := by
    cases h : restartPks streams with
    | nil => rw [h] at hin; cases hin
    | cons x xs => rfl
  refine ⟨?_, ?_, ?_⟩
  · unfold handle_restarts
    simp [hne]
  · unfold handle_restarts
    simp only [hne, Bool.false_eq_true, if_false]
    rw [List.mem_filter]
    refine ⟨hdb, ?_⟩
    simp only [List.contains_eq_any_beq, List.any_eq_true]
    exact ⟨a.pk, List.mem_append_right _ hin, by simp⟩
  · intro streams2 h2
    unfold handle_restarts
    rw [restartPks_eq_nil h2]
    rfl

/-- Witness for C2: channel of user 1 reports not-running with bound
archive 7; the cooldown is slept and archive 7 (tracked, running,
window closed) is returned. -/
theorem c2_restart_detection_cooldown_witness :
    let A : Archive := ⟨7, 1, "q", 0, some 5, true⟩
    (handle_restarts [(1, ⟨false, [A]⟩)] [] ⟨[A], []⟩).2
        = [Event.sleep CHILL_TIME] ∧
    A ∈ (handle_restarts [(1, ⟨false, [A]⟩)] [] ⟨[A], []⟩).1 ∧
    ∀ streams2 : List (Nat × Channel), (∀ p ∈ streams2, p.2.running = true) →
      handle_restarts streams2 [] ⟨[A], []⟩ = ([], []) :=
  c2_restart_detection_cooldown [(1, ⟨false, [⟨7, 1, "q", 0, some 5, true⟩]⟩)] []
    ⟨[⟨7, 1, "q", 0, some 5, true⟩], []⟩ 1 ⟨false, [⟨7, 1, "q", 0, some 5, true⟩]⟩
    ⟨7, 1, "q", 0, some 5, true⟩ (by decide) rfl (by decide) (by decide)

/-- C3: for a touched owner holding a live channel, `adjust_connections`
disconnects that channel and closes its log in a first phase of the tick
during which no channel is opened (every open event lies in the later
phase), and the registry keeps at most one channel per owner: key
distinctness is preserved across reconciliation. -/
theorem c3_one_channel_per_owner
    (c : Command) (db : Database) (to_start to_stop : List Archive) (u : Nat)
    (hkeys : (c.streams.map (·.1)).Nodup)
    (htouch : u ∈ (to_start ++ to_stop).map (·.user))
    (hlive : u ∈ c.streams.map (·.1)) :
    ((adjust_connections c db to_start to_stop).collector.streams.map (·.1)).Nodup ∧
    ∃ l1 l2, (adjust_connections c db to_start to_stop).events = l1 ++ l2 ∧
      Event.disconnect u ∈ l1 ∧ Event.closeLog u ∈ l1 ∧
      ∀ v, Event.openChannel v ∉ l1 := by
  have hkills := killStreams_kills ((to_start ++ to_stop).map (·.user)) c.streams
    u htouch hlive
  obtain ⟨tail, htail⟩ := adjust_connections_events c db to_start to_stop
  exact ⟨adjust_connections_nodupKeys c db to_start to_stop hkeys,
    (killStreams ((to_start ++ to_stop).map (·.user)) c.streams).2, tail,
    htail, hkills.1, hkills.2, fun v => killStreams_no_open _ _ v⟩

/-- Witness for C3: owner 1 has a live channel for archive 3 and archive
4 (same owner, overlapping window) is starting; the old channel is
disconnected before any open event. -/
theorem c3_one_channel_per_owner_witness :
    let A3 : Archive := ⟨3, 1, "a", 0, none, true⟩
    let A4 : Archive := ⟨4, 1, "b", 0, none, false⟩
    let c : Command := ⟨[3], [(1, ⟨true, [A3]⟩)], true⟩
    let db : Database := ⟨[A3, A4], []⟩
    ((adjust_connections c db [A4] []).collector.streams.map (·.1)).Nodup ∧
    ∃ l1 l2, (adjust_connections c db [A4] []).events = l1 ++ l2 ∧
      Event.disconnect 1 ∈ l1 ∧ Event.closeLog 1 ∈ l1 ∧
      ∀ v, Event.openChannel v ∉ l1 :=
  c3_one_channel_per_owner ⟨[3], [(1, ⟨true, [⟨3, 1, "a", 0, none, true⟩]⟩)], true⟩
    ⟨[⟨3, 1, "a", 0, none, true⟩, ⟨4, 1, "b", 0, none, false⟩], []⟩
    [⟨4, 1, "b", 0, none, false⟩] [] 1 (by decide) (by decide) (by decide)

/-- C4 counterexample: the claim states that every archive with
`stopped <= now` at the start of a tick ends the tick not running,
untracked and channel-free.  Archive 7 has `stopped = 5 <= now = 10` and
`is_running = true`, but sits on a channel that reports not-running:
restart detection re-adds its pk past the window filter, so after the
tick it is running again, tracked, and carried by a live channel. -/
theorem c4_counterexample :
    let A : Archive := ⟨7, 1, "q", 0, some 5, true⟩
    let r := tick 10 ⟨[7], [(1, ⟨false, [A]⟩)], true⟩ ⟨[A], []⟩
    A.stopped = some 5 ∧ (5 : Int) ≤ 10 ∧
    (∀ b ∈ r.db.archives, b.pk = 7 → b.is_running = true) ∧
    7 ∈ r.collector.tracking ∧
    (∃ p ∈ r.collector.streams, ∃ b ∈ p.2.archives, b.pk = 7) := by
  decide

/-- C4 as amended: for every archive with `stopped <= now` and
`is_running = true` at the start of a reconciliation tick whose pk is
not gathered by restart detection, after the tick its row is persisted
not-running, its pk is absent from the tracked set and no live channel
group contains it (under the store and registry invariants: distinct
row pks, distinct tracked pks, and channels only carry archives of
their owner). -/
theorem c4_stopped_archive_fully_stopped
    (now : Int) (c : Command) (db : Database) (a : Archive) (t : Int)
    (hmem : a ∈ db.archives)
    (hnodup : (db.archives.map (·.pk)).Nodup)
    (htrack : c.tracking.Nodup)
    (hstop : a.stopped = some t) (hle : t ≤ now)
    (hrun : a.is_running = true)
    (hnorestart : a.pk ∉ restartPks c.streams)
    (hchan : ∀ p ∈ c.streams, ∀ b ∈ p.2.archives, b.pk = a.pk → p.1 = a.user) :
    (∀ b ∈ (tick now c db).db.archives, b.pk = a.pk → b.is_running = false) ∧
    a.pk ∉ (tick now c db).collector.tracking ∧
    (∀ p ∈ (tick now c db).collector.streams,
      ∀ b ∈ p.2.archives, b.pk ≠ a.pk) := by
  have hstopmem : a ∈ get_archives_to_stop now db := by
    unfold get_archives_to_stop
    rw [List.mem_filter]
    refine ⟨hmem, ?_⟩
    rw [hstop]
    simp [hle, hrun]
  have hstopE : (get_archives_to_stop now db).isEmpty = false := by
    cases h : get_archives_to_stop now db with
    | nil => rw [h] at hstopmem; cases hstopmem
    | cons x xs => rfl
  have hts : ∀ b ∈ (get_archives_to_start now c db).to_start, b.pk ≠ a.pk := by
    intro b hb hbpk
    obtain ⟨hbdb, hdisj⟩ := mem_to_start_characterization now c db b hnodup hb
    have hba : b = a := pk_inj hnodup hbdb hmem hbpk
    subst hba
    rcases hdisj with hres | hwin
    · exact hnorestart hres
    · rw [hstop] at hwin
      exact absurd hwin (not_lt.mpr hle)
  have hcond : ((get_archives_to_start now c db).to_start.isEmpty &&
      (get_archives_to_stop now db).isEmpty) = false := by
    rw [hstopE, Bool.and_false]
  have hadj := adjust_connections_stops
    { c with first_pass_completed :=
        (get_archives_to_start now c db).first_pass_completed }
    db (get_archives_to_start now c db).to_start (get_archives_to_stop now db) a
    htrack hstopmem hts hchan
  have htick : tick now c db = {
      collector := (adjust_connections
        { c with first_pass_completed :=
            (get_archives_to_start now c db).first_pass_completed }
        db (get_archives_to_start now c db).to_start
        (get_archives_to_stop now db)).collector,
      db := (adjust_connections
        { c with first_pass_completed :=
            (get_archives_to_start now c db).first_pass_completed }
        db (get_archives_to_start now c db).to_start
        (get_archives_to_stop now db)).db,
      events := (get_archives_to_start now c db).events ++ (adjust_connections
        { c with first_pass_completed :=
            (get_archives_to_start now c db).first_pass_completed }
        db (get_archives_to_start now c db).to_start
        (get_archives_to_stop now db)).events } := by
    simp only [tick, hcond, Bool.false_eq_true, if_false]
  rw [htick]
  exact hadj

/-- Witness for C4 as amended: archive 7 (`stopped = 5 <= now = 10`,
running, tracked, on a healthy channel of its owner) is fully stopped by
the tick. -/
theorem c4_stopped_archive_fully_stopped_witness :
    let A : Archive := ⟨7, 1, "q", 0, some 5, true⟩
    let c : Command := ⟨[7], [(1, ⟨true, [A]⟩)], true⟩
    let db : Database := ⟨[A], []⟩
    (∀ b ∈ (tick 10 c db).db.archives, b.pk = A.pk → b.is_running = false) ∧
    A.pk ∉ (tick 10 c db).collector.tracking ∧
    (∀ p ∈ (tick 10 c db).collector.streams,
      ∀ b ∈ p.2.archives, b.pk ≠ A.pk) :=
  c4_stopped_archive_fully_stopped 10
    ⟨[7], [(1, ⟨true, [⟨7, 1, "q", 0, some 5, true⟩]⟩)], true⟩
    ⟨[⟨7, 1, "q", 0, some 5, true⟩], []⟩ ⟨7, 1, "q", 0, some 5, true⟩ 5
    (by decide) (by decide) (by decide) rfl (by decide) rfl (by decide)
    (by decide)

/-- C10: an archive row whose pk was gathered by restart detection is in
the final `to_start` if and only if its owner is not disabled — the
`started`, `stopped`, `is_running` and tracked filters all sit before the
`_handle_restarts` re-query and are bypassed, while the disabled-owner
exclusion is applied to its result. -/
theorem c10_restart_ids_bypass_window_filters
    (now : Int) (c : Command) (db : Database) (a : Archive)
    (hdb : a ∈ db.archives) (hpk : a.pk ∈ restartPks c.streams) :
    a ∈ (get_archives_to_start now c db).to_start ↔
      a.user ∉ db.disabledUsers := by
  have hne : (restartPks c.streams).isEmpty = false := by
    cases h : restartPks c.streams with
    | nil => rw [h] at hpk; cases hpk
    | cons x xs => rfl
  unfold get_archives_to_start handle_restarts
  simp only [hne, Bool.false_eq_true, if_false]
  constructor
  · intro hmem
    rw [List.mem_filter] at hmem
    simpa using hmem.2
  · intro hnd
    rw [List.mem_filter]
    constructor
    · rw [List.mem_filter]
      refine ⟨hdb, ?_⟩
      simp only [List.contains_eq_any_beq, List.any_eq_true]
      exact ⟨a.pk, List.mem_append_right _ hpk, by simp⟩
    · simpa using hnd

/-- Witness for C10: archive 9 has `started` in the future (100 > now)
and `stopped` already elapsed, yet being bound to a dead channel puts it
in `to_start`; its owner is not disabled. -/
theorem c10_restart_ids_bypass_window_filters_witness :
    let A : Archive := ⟨9, 2, "q", 100, some 0, false⟩
    let c : Command := ⟨[9], [(2, ⟨false, [A]⟩)], true⟩
    (A ∈ (get_archives_to_start 10 c ⟨[A], []⟩).to_start ↔
      A.user ∉ Database.disabledUsers ⟨[A], []⟩) ∧
    A ∈ (get_archives_to_start 10 c ⟨[A], []⟩).to_start := by
  refine ⟨c10_restart_ids_bypass_window_filters 10 _ _ _ (by decide) ?_, by decide⟩
  decide

end Collector

namespace Consumers

/-- C5 counterexample: the claim states that cold-start replay feeds
every well-formed record to the raw aggregator as well.  Replaying one
well-formed record leaves the raw aggregator untouched while the
statistics aggregator receives the record: `_parse_line` never calls
`self.raw.collect`. -/
theorem c5_counterexample :
    (compile_aggregates ⟨0, true, [], [], [], [], [], [], false⟩
        [Line.ok 42]).raw = [] ∧
    (compile_aggregates ⟨0, true, [], [], [], [], [], [], false⟩
        [Line.ok 42]).statistics = [42] := by
  decide

/-- C5 as amended: during cold-start replay, `total` is first reset to 0,
and every well-formed logged record is fed via collect to the cloud,
images, map and statistics aggregators — but not to the raw aggregator —
with the search aggregator additionally fed exactly when `allow_search`
is set. -/
theorem c5_replay_feeding (c : Consumer) (lines : List Line)
    (hstop : c.should_stop = false) :
    (compile_aggregates c lines).raw = c.raw ∧
    (compile_aggregates c lines).cloud = c.cloud ++ goodTweets lines ∧
    (compile_aggregates c lines).images = c.images ++ goodTweets lines ∧
    (compile_aggregates c lines).map = c.map ++ goodTweets lines ∧
    (compile_aggregates c lines).statistics = c.statistics ++ goodTweets lines ∧
    (compile_aggregates c lines).search
        = c.search ++ (if c.allow_search then goodTweets lines else []) ∧
    (compile_aggregates c lines).total
        = c.statistics.length + (goodTweets lines).length ∧
    (∀ c2 : Consumer, c2.should_stop = true → ∀ l ls,
      compile_aggregates c2 (l :: ls) = { c2 with total := 0 }) := by
  have hspec := compileLoop_spec lines { c with total := 0 } (by simpa using hstop)
  unfold compile_aggregates
  rw [hspec]
  refine ⟨rfl, rfl, rfl, rfl, rfl, rfl, rfl, ?_⟩
  intro c2 h2 l ls
  simp [compile_aggregates, compileLoop, h2]

/-- Witness for C5 as amended: a two-line log with a stale total of 99
and `allow_search` off. -/
theorem c5_replay_feeding_witness :
    let c : Consumer := ⟨99, false, [10], [], [], [], [], [], false⟩
    let lines : List Line := [Line.ok 1, Line.corrupt, Line.ok 2]
    (compile_aggregates c lines).raw = c.raw ∧
    (compile_aggregates c lines).cloud = c.cloud ++ goodTweets lines ∧
    (compile_aggregates c lines).images = c.images ++ goodTweets lines ∧
    (compile_aggregates c lines).map = c.map ++ goodTweets lines ∧
    (compile_aggregates c lines).statistics = c.statistics ++ goodTweets lines ∧
    (compile_aggregates c lines).search
        = c.search ++ (if c.allow_search then goodTweets lines else []) ∧
    (compile_aggregates c lines).total
        = c.statistics.length + (goodTweets lines).length ∧
    (∀ c2 : Consumer, c2.should_stop = true → ∀ l ls,
      compile_aggregates c2 (l :: ls) = { c2 with total := 0 }) :=
  c5_replay_feeding ⟨99, false, [10], [], [], [], [], [], false⟩
    [Line.ok 1, Line.corrupt, Line.ok 2] rfl

/-- C6: replaying a log of N well-formed records yields the same
statistics aggregate total as processing those N records live one at a
time through `_process_message`, and hence the same final archive total
once `_write_distillations` recomputes it from the statistics
aggregate. -/
theorem c6_replay_live_roundtrip (c : Consumer) (tweets : List Tweet)
    (hstat : c.statistics = []) (hstop : c.should_stop = false) :
    statisticsTotal (compile_aggregates c (tweets.map Line.ok))
        = statisticsTotal (processLive c tweets) ∧
    (compile_aggregates c (tweets.map Line.ok)).total
        = (write_distillations (processLive c tweets)).total ∧
    (compile_aggregates c (tweets.map Line.ok)).total = tweets.length := by
  have hreplay := c5_replay_feeding c (tweets.map Line.ok) hstop
  have hlive := processLive_spec tweets c
  have hstats : (compile_aggregates c (tweets.map Line.ok)).statistics = tweets := by
    rw [hreplay.2.2.2.2.1, goodTweets_map_ok, hstat, List.nil_append]
  have hlivestats : (processLive c tweets).statistics = tweets := by
    rw [hlive.1, hstat, List.nil_append]
  have htot : (compile_aggregates c (tweets.map Line.ok)).total = tweets.length := by
    rw [hreplay.2.2.2.2.2.2.1, goodTweets_map_ok, hstat]
    simp
  refine ⟨?_, ?_, htot⟩
  · unfold statisticsTotal
    rw [hstats, hlivestats]
  · unfold write_distillations statisticsTotal
    rw [htot, hlivestats]

/-- Witness for C6: three records replayed and processed live. -/
theorem c6_replay_live_roundtrip_witness :
    let c : Consumer := ⟨0, true, [], [], [], [], [], [], false⟩
    let tweets : List Tweet := [4, 5, 6]
    statisticsTotal (compile_aggregates c (tweets.map Line.ok))
        = statisticsTotal (processLive c tweets) ∧
    (compile_aggregates c (tweets.map Line.ok)).total
        = (write_distillations (processLive c tweets)).total ∧
    (compile_aggregates c (tweets.map Line.ok)).total = tweets.length :=
  c6_replay_live_roundtrip ⟨0, true, [], [], [], [], [], [], false⟩ [4, 5, 6] rfl rfl

/-- C7: replay tolerates malformed lines — a malformed line changes
nothing (no aggregator collect happens for it, so replay cannot raise
through one) and the compiled total counts exactly the well-formed
lines. -/
theorem c7_malformed_records_skipped (c : Consumer) (lines : List Line)
    (hstop : c.should_stop = false) (hstat : c.statistics = []) :
    (compile_aggregates c lines).total
        = (lines.filter (fun l => (parseJson l).isSome)).length ∧
    (∀ c2 : Consumer, ∀ l, parseJson l = none → parse_line c2 l = c2) := by
  refine ⟨?_, fun c2 l h => parse_line_corrupt c2 l h⟩
  rw [(c5_replay_feeding c lines hstop).2.2.2.2.2.2.1, hstat, ← goodTweets_length]
  simp

/-- Witness for C7: a log of 5 well-formed and 2 malformed records
yields a total of 5. -/
theorem c7_malformed_records_skipped_witness :
    let c : Consumer := ⟨0, false, [], [], [], [], [], [], false⟩
    let lines : List Line := [Line.ok 1, Line.corrupt, Line.ok 2, Line.ok 3,
      Line.corrupt, Line.ok 4, Line.ok 5]
    ((compile_aggregates c lines).total
        = (lines.filter (fun l => (parseJson l).isSome)).length ∧
      (∀ c2 : Consumer, ∀ l, parseJson l = none → parse_line c2 l = c2)) ∧
    (compile_aggregates c lines).total = 5 :=
  ⟨c7_malformed_records_skipped ⟨0, false, [], [], [], [], [], [], false⟩
      [Line.ok 1, Line.corrupt, Line.ok 2, Line.ok 3, Line.corrupt,
        Line.ok 4, Line.ok 5] rfl rfl,
    by decide⟩

/-- C8 counterexample: the claim states that for every exception the
message is left unacknowledged.  When the exception arises in the tail of
`_process_message` after `message.ack()` (the debug log or the windowed
`_write_distillations`), the handler still reports, sleeps and requests
shutdown — but the message was already acknowledged. -/
theorem c8_counterexample :
    (process_message ⟨0, false, [], [], [], [], [], [], false⟩ 1
        (some Step.postAck)).raised = true ∧
    (callback ⟨0, false, [], [], [], [], [], [], false⟩ 1
        (some Step.postAck)).acked = true ∧
    (callback ⟨0, false, [], [], [], [], [], [], false⟩ 1
        (some Step.postAck)).consumer.should_stop = true := by
  decide

/-- C8 as amended: for every message whose processing raises, `callback`
never propagates the exception, sleeps the fixed one-second settle
interval and sets `should_stop`; the message is left unacknowledged
exactly when the exception arose before the acknowledgment step (an
aggregator collect or the ack itself), while an exception in the
post-ack tail leaves it acknowledged. -/
theorem c8_failure_requests_shutdown (c : Consumer) (t : Tweet) (s : Step)
    (h : (process_message c t (some s)).raised = true) :
    (callback c t (some s)).propagated = false ∧
    (callback c t (some s)).consumer.should_stop = true ∧
    (callback c t (some s)).slept = 1 ∧
    ((callback c t (some s)).acked = true ↔ s = Step.postAck) := by
  cases c with
  | mk total allow_search raw cloud images mp st se stop =>
    cases s <;> by_cases hA : allow_search <;>
      simp_all [callback, process_message, steps, runSteps, collectStep]

/-- Witness for C8 as amended: the cloud aggregator raises; the message
stays unacknowledged and the worker requests shutdown. -/
theorem c8_failure_requests_shutdown_witness :
    let c : Consumer := ⟨3, true, [], [], [], [], [], [], false⟩
    (callback c 9 (some Step.collectCloud)).propagated = false ∧
    (callback c 9 (some Step.collectCloud)).consumer.should_stop = true ∧
    (callback c 9 (some Step.collectCloud)).slept = 1 ∧
    ((callback c 9 (some Step.collectCloud)).acked = true ↔
      Step.collectCloud = Step.postAck) :=
  c8_failure_requests_shutdown ⟨3, true, [], [], [], [], [], [], false⟩ 9
    Step.collectCloud (by decide)

/-- C9: `_process_message` increments `archive.total` before any
aggregator collect and before the acknowledgment, so when an aggregator
collect raises, the total has already counted the record while the
message remains unacknowledged. -/
theorem c9_total_counts_before_ack (c : Consumer) (t : Tweet) (s : Step)
    (hs : s ≠ Step.ack ∧ s ≠ Step.postAck)
    (h : (process_message c t (some s)).raised = true) :
    (process_message c t (some s)).consumer.total = c.total + 1 ∧
    (process_message c t (some s)).acked = false := by
  cases c with
  | mk total allow_search raw cloud images mp st se stop =>
    cases s <;> by_cases hA : allow_search <;>
      simp_all [process_message, steps, runSteps, collectStep]

/-- Witness for C9: the statistics aggregator raises on record 5; the
total was already incremented and the message is unacknowledged. -/
theorem c9_total_counts_before_ack_witness :
    let c : Consumer := ⟨7, false, [], [], [], [], [], [], false⟩
    (process_message c 5 (some Step.collectStatistics)).consumer.total
        = c.total + 1 ∧
    (process_message c 5 (some Step.collectStatistics)).acked = false :=
  c9_total_counts_before_ack ⟨7, false, [], [], [], [], [], [], false⟩ 5
    Step.collectStatistics (by decide) (by decide)

end Consumers
